import Mathlib

/-!
Shallow embedding of the MuseScore system-layout engine
(src/engraving/libmscore/system.cpp): the SysStaff / System data model,
the vertical staff-stacking pass `layout2`, the save/restore pair
`saveLayout` / `restoreLayout` / `restoreLayout2`, bracket creation and
horizontal placement, and instrument-name migration.

Conventions of the embedding:
* `qreal` (a C++ double) is modelled as `ℚ`; the layout arithmetic uses
  only `+`, `-`, `*`, `max` and comparisons, which are exact in any
  linear ordered field.
* Staff indices are `ℕ` except where the C++ uses signed arithmetic that
  can go negative (bracket span shrinking, the `System::staff` accessor),
  where `ℤ` is used.
* Pointers that may be null are modelled as `Option`.
* The skyline is consulted in `layout2` only through the pure query
  `Skyline::minDistance` between the south line of the upper staff and
  the north line of the lower staff; the embedding carries that query as
  a function `skylineDist : ℕ → ℕ → ℚ` on the `System` (the profiles are
  rebuilt externally, see spec section 4.1; the query result can be any
  rational, including the large negative sentinel of an empty profile).
-/

namespace Ms

/-- Axis-aligned rectangle, mirroring `mu::RectF` as used by the layout
code (x, y, width, height). -/
structure RectF where
  x : ℚ
  y : ℚ
  w : ℚ
  h : ℚ
deriving DecidableEq, Repr, Inhabited

/-- `RectF::bottom()` = y + height. -/
def RectF.bottom (r : RectF) : ℚ := r.y + r.h

/-- The default-constructed `RectF()` used to clear the bbox of a hidden
staff. -/
def RectF.zero : RectF := ⟨0, 0, 0, 0⟩

/-- `InstrumentNameType::LONG` / `SHORT`. -/
inductive InstrumentNameType where
  | long
  | short
deriving DecidableEq, Repr

/-- The fields of an `InstrumentName` element that the system layout
reads or writes (text, long/short type, track, layout position). -/
structure InstrumentName where
  xmlText : String
  nameType : InstrumentNameType
  track : ℕ
  layoutPos : ℕ
deriving DecidableEq, Repr

/-- Per-staff layout record `SysStaff`: bbox, y-offset, visibility flag
(`SysStaff::show()`, field `visible` here because `show` is reserved in
Lean), the remembered continuous-view distance, the vertical state saved
by `saveLayout` (`_height`, `_yPos`) and the instrument-name list. -/
structure SysStaff where
  bbox : RectF
  yOff : ℚ
  visible : Bool
  continuousDist : ℚ
  savedHeight : ℚ
  savedYPos : ℚ
  instrumentNames : List InstrumentName
deriving DecidableEq, Repr, Inhabited

/-- `SysStaff::saveLayout()`: `_height = bbox().height(); _yPos = bbox().y();` -/
def SysStaff.saveLayout (s : SysStaff) : SysStaff :=
  { s with savedHeight := s.bbox.h, savedYPos := s.bbox.y }

/-- `SysStaff::restoreLayout()`: `bbox().setY(_yPos); bbox().setHeight(_height);` -/
def SysStaff.restoreLayout (s : SysStaff) : SysStaff :=
  { s with bbox := { s.bbox with y := s.savedYPos, h := s.savedHeight } }

/-- A vertical `Spacer`: `spacerType() == SpacerType::FIXED` collapsed to
a Bool, plus its gap. -/
structure Spacer where
  isFixed : Bool
  gap : ℚ
deriving DecidableEq, Repr

/-- Kind of a `MeasureBase` as discriminated by `setMeasureHeight` and
the spacer scan (`isMeasure` / `isHBox` / `isTBox` / anything else). -/
inductive MeasureKind where
  | measure
  | hbox
  | tbox
  | other
deriving DecidableEq, Repr

/-- The fields of a `MeasureBase` that `layout2` / `setMeasureHeight`
read or write: its kind, width, bbox, and the up/down spacers attached
at each staff index (`Measure::vspacerDown` / `vspacerUp`). -/
structure MeasureBase where
  kind : MeasureKind
  width : ℚ
  bbox : RectF
  vspacerDown : ℕ → Option Spacer
  vspacerUp : ℕ → Option Spacer

/-- The fields of a score `Staff` read by the system layout: visibility
(`Staff::show()`), line count, height, user distance, owning part
(represented by an index) and the staff magnification at the first
measure's tick. -/
structure Staff where
  visible : Bool
  lines : ℕ
  height : ℚ
  userDist : ℚ
  partIdx : ℕ
  mag : ℚ
deriving DecidableEq, Repr, Inhabited

/-- The score-wide data that `layout2` and the instrument-name layout
read: the staff list, the part sizes (number of staves per part, in
order), the style distances, the vertical-spread and line-mode flags,
and the spatium.  `barlineSpan1From` / `barlineSpan1To` stand for the
constants `BARLINE_SPAN_1LINESTAFF_FROM` / `_TO` from mscore.h (their
numeric values do not matter for any property proved here). -/
structure Score where
  staves : List Staff
  parts : List ℕ
  minVerticalDistance : ℚ
  staffDistance : ℚ
  akkoladeDistance : ℚ
  minStaffSpread : ℚ
  enableVerticalSpread : Bool
  lineMode : Bool
  spatium : ℚ
  barlineSpan1From : ℚ
  barlineSpan1To : ℚ

/-- `score()->staff(i)`, totalised with a default (layout only consults
indices for which a staff exists, by the 1:1 staff-record invariant). -/
def Score.staffAt (sc : Score) (i : ℕ) : Staff :=
  (sc.staves.get? i).getD default

/-- The `System` state touched by the vertical layout: per-staff records,
measure list, margins, bbox width/height, position, the measure-less
frame flag (`vbox()`), the height a vertical frame would impose, and the
skyline minimum-distance query between staves (see module docstring). -/
structure System where
  staves : List SysStaff
  ml : List MeasureBase
  leftMargin : ℚ
  width : ℚ
  systemHeight : ℚ
  bboxHeight : ℚ
  posX : ℚ
  posY : ℚ
  hasVBox : Bool
  vboxHeight : ℚ
  skylineDist : ℕ → ℕ → ℚ

/-- `_staves[i]` totalised with a default. -/
def System.sysStaffAt (sys : System) (i : ℕ) : SysStaff :=
  (sys.staves.get? i).getD default

/-- `System::staff(int staffIdx)`:
returns the record when `0 <= staffIdx < _staves.size()`, else `nullptr`. -/
def System.staff (sys : System) (staffIdx : ℤ) : Option SysStaff :=
  if 0 ≤ staffIdx ∧ staffIdx < (sys.staves.length : ℤ) then
    sys.staves.get? staffIdx.toNat
  else
    none

/-- In-place update of the i-th staff record (`_staves[i]` mutation). -/
def listModify (f : α → α) : ℕ → List α → List α
  | _, [] => []
  | 0, x :: xs => f x :: xs
  | n + 1, x :: xs => x :: listModify f n xs

def System.setStaff (sys : System) (i : ℕ) (f : SysStaff → SysStaff) : System :=
  { sys with staves := listModify f i sys.staves }

/-- The effective `staffDistance` of `layout2`: replaced by
`minStaffSpread` when vertical spread is enabled. -/
def Score.effStaffDistance (sc : Score) : ℚ :=
  if sc.enableVerticalSpread then sc.minStaffSpread else sc.staffDistance

/-- The effective `akkoladeDistance` of `layout2`: replaced by
`minStaffSpread` when vertical spread is enabled. -/
def Score.effAkkoladeDistance (sc : Score) : ℚ :=
  if sc.enableVerticalSpread then sc.minStaffSpread else sc.akkoladeDistance

/-- The spacer scan of `layout2` over the measure list `ml` for the
staff boundary (si1 above, si2 below); `h` is the upper staff's height
and `dist` the distance accumulated so far.  Returns the adjusted
distance together with the `fixedSpace` flag.  A FIXED down-spacer on
the upper staff sets `dist = h + gap` and breaks out of the loop; an
elastic down-spacer and any up-spacer on the lower staff only raise the
running maximum. -/
def spacerScan (si1 si2 : ℕ) (h : ℚ) : List MeasureBase → ℚ → ℚ × Bool
  | [], dist => (dist, false)
  | mb :: rest, dist =>
    if mb.kind = MeasureKind.measure then
      match mb.vspacerDown si1 with
      | some sp =>
        if sp.isFixed then
          (h + sp.gap, true)
        else
          let dist1 := max dist (h + sp.gap)
          let dist2 := match mb.vspacerUp si2 with
            | some sp2 => max dist1 (sp2.gap + h)
            | none => dist1
          spacerScan si1 si2 h rest dist2
      | none =>
        let dist2 := match mb.vspacerUp si2 with
          | some sp2 => max dist (sp2.gap + h)
          | none => dist
        spacerScan si1 si2 h rest dist2
    else
      spacerScan si1 si2 h rest dist

/-- The gap of the first FIXED down-spacer the scan of `layout2` reaches
on staff `si1`, if any (the spacer at which the scan short-circuits). -/
def firstFixedGap : List MeasureBase → ℕ → Option ℚ
  | [], _ => none
  | mb :: rest, si1 =>
    if mb.kind = MeasureKind.measure then
      match mb.vspacerDown si1 with
      | some sp => if sp.isFixed then some sp.gap else firstFixedGap rest si1
      | none => firstFixedGap rest si1
    else
      firstFixedGap rest si1

/-- The distance computation of `layout2` for one adjacent pair of
visible staves (si1 above, si2 below), assembled exactly as in the
source: start from the upper staff's height; add the akkolade distance
scaled by the staff magnification (the magnification at the first
measure's tick, or 1.0 when the system has no measure) when both staves
belong to the same part, else the staff distance; add the lower staff's
user distance; run the spacer scan; and, unless a FIXED spacer applied,
raise the distance to the skyline minimum distance `d` plus
`minVerticalDistance`, where in continuous view `d` is first combined
with the remembered `continuousDist` (`prevCD`), which is overwritten
only when `d` exceeds it.  Returns the distance by which the staff
y-position advances, together with the new remembered continuous
distance of the upper staff's record. -/
def staffPairDist (sc : Score) (ml : List MeasureBase) (si1 si2 : ℕ)
    (prevCD d : ℚ) : ℚ × ℚ :=
  let st := sc.staffAt si1
  let st2 := sc.staffAt si2
  let dist0 := st.height
  let dist1 :=
    if st.partIdx = st2.partIdx then
      let mag := if (ml.any fun mb => mb.kind = MeasureKind.measure) then st.mag else 1
      dist0 + sc.effAkkoladeDistance * mag
    else
      dist0 + sc.effStaffDistance
  let dist2 := dist1 + st2.userDist
  match spacerScan si1 si2 st.height ml dist2 with
  | (dist3, true) => (dist3, prevCD)
  | (dist3, false) =>
    if sc.lineMode then
      if d > prevCD then
        (max dist3 (d + sc.minVerticalDistance), d)
      else
        (max dist3 (prevCD + sc.minVerticalDistance), prevCD)
    else
      (max dist3 (d + sc.minVerticalDistance), prevCD)

/-- The y-offset and bbox height chosen by `layout2` for a staff: a
one-line staff is given the special barline span based geometry, a
multi-line staff uses its plain height. -/
def staffGeom (sc : Score) (st : Staff) : ℚ × ℚ :=
  if st.lines = 1 then
    (sc.spatium * sc.barlineSpan1To * (1 / 2),
     sc.spatium * (sc.barlineSpan1To - sc.barlineSpan1From) * (1 / 2))
  else
    (0, st.height)

/-- The indices the `layout2` visibility pass collects into
`visibleStaves`: both the score staff and the system staff record must
be shown. -/
def visibleIdx (sc : Score) (sys : System) : List ℕ :=
  (List.range sys.staves.length).filter fun i =>
    (sc.staffAt i).visible && (sys.sysStaffAt i).visible

/-- The bbox-clearing pass of `layout2` (`ss->setbbox(RectF())` for every
staff that is not visible), walking the records with their indices. -/
def clearHidden (sc : Score) : ℕ → List SysStaff → List SysStaff
  | _, [] => []
  | i, ss :: rest =>
    (if (sc.staffAt i).visible && ss.visible then ss
     else { ss with bbox := RectF.zero }) :: clearHidden sc (i + 1) rest

/-- The main stacking loop of `layout2` over the visible staff indices,
threading the running y position.  For each non-last staff the pair
distance to the next visible staff is computed (reading the remembered
continuous distance and the skyline query from the state), the record is
positioned and saved, and y advances; the last staff is positioned and
saved without advancing. -/
def layout2Loop (sc : Score) : List ℕ → ℚ → System → System
  | [], _, sys => sys
  | [si1], y, sys =>
    let st := sc.staffAt si1
    let g := staffGeom sc st
    sys.setStaff si1 fun ss =>
      SysStaff.saveLayout
        { ss with
          yOff := g.1
          bbox := ⟨sys.leftMargin, y - g.1, sys.width - sys.leftMargin, g.2⟩ }
  | si1 :: si2 :: rest, y, sys =>
    let st := sc.staffAt si1
    let g := staffGeom sc st
    let r := staffPairDist sc sys.ml si1 si2
      (sys.sysStaffAt si1).continuousDist (sys.skylineDist si1 si2)
    let sys1 := sys.setStaff si1 fun ss =>
      SysStaff.saveLayout
        { ss with
          continuousDist := r.2
          yOff := g.1
          bbox := ⟨sys.leftMargin, y - g.1, sys.width - sys.leftMargin, g.2⟩ }
    layout2Loop sc (si2 :: rest) (y + r.1) sys1

/-- `System::setMeasureHeight` on a single `MeasureBase`: an ordinary
measure's bbox is set to `(0, -spatium, width, height + 2*spatium)`, an
HBox's to `(0, 0, width, height)`; a TBox only re-runs its own layout
and any other kind is only logged, neither changes the fields modelled
here. -/
def setMeasureHeightMB (sp height : ℚ) (m : MeasureBase) : MeasureBase :=
  match m.kind with
  | MeasureKind.measure => { m with bbox := ⟨0, -sp, m.width, height + 2 * sp⟩ }
  | MeasureKind.hbox => { m with bbox := ⟨0, 0, m.width, height⟩ }
  | MeasureKind.tbox => m
  | MeasureKind.other => m

/-- `VOICES` from mscore.h (tracks per staff). -/
def VOICES : ℕ := 4

/-- The per-name retargeting applied when instrument names are migrated
to the first visible staff `v` of a part: `t->setTrack(visible * VOICES)`
(text and type are not touched). -/
def retrack (v : ℕ) (t : InstrumentName) : InstrumentName :=
  { t with track := v * VOICES }

/-- `System::firstVisibleSysStaffOfPart`, expressed on the record list:
scan the part's staff range `[start, start + n)` for the first record
whose `show()` is set.  (The C++ scans `staff(idx)->show()`; an index
with no record is treated as not shown.) -/
def firstVisibleInRange (staves : List SysStaff) : ℕ → ℕ → Option ℕ
  | _, 0 => none
  | start, n + 1 =>
    if ((staves.get? start).map SysStaff.visible).getD false then some start
    else firstVisibleInRange staves (start + 1) n

/-- The instrument-name migration of `System::layoutInstrumentNames` for
one part occupying staves `[start, start + n)`: when the part has a
visible staff `v` and `v` is not the part's top staff, every name
element of the top staff's record is appended, retargeted to staff `v`'s
track, to `v`'s record, and the top staff's list is cleared.  (The rest
of `layoutInstrumentNames` only assigns vertical positions to the name
elements, which the record model does not carry.) -/
def migratePart (staves : List SysStaff) (start n : ℕ) : List SysStaff :=
  match firstVisibleInRange staves start n with
  | none => staves
  | some v =>
    if v = start then staves
    else
      let s := (staves.get? start).getD default
      let staves1 := listModify
        (fun vs => { vs with
          instrumentNames := vs.instrumentNames ++ s.instrumentNames.map (retrack v) })
        v staves
      listModify (fun s0 => { s0 with instrumentNames := [] }) start staves1

/-- The loop of `System::layoutInstrumentNames` over the score's parts,
accumulating the starting staff index part by part. -/
def layoutInstrumentNamesL : List ℕ → ℕ → List SysStaff → List SysStaff
  | [], _, staves => staves
  | n :: rest, start, staves =>
    layoutInstrumentNamesL rest (start + n) (migratePart staves start n)

/-- `System::layout2`: the vertical layout pass.  A frame-box system
only lays out its frame (here: adopts the frame height).  Otherwise the
position is reset, hidden staves' bboxes are cleared and the visible
records are collected; with no visible staff the pass returns right
there (after logging).  Otherwise the stacking loop runs, the system
height is read off the bottom of the last visible staff's bbox,
propagated to the system bbox and to every measure, and the
instrument-name migration runs.  (`layoutBracketsVertical` and the
cross-staff spanner pass touch only brackets and spanner segments, which
the `System` record here does not carry; the name y-positioning likewise
only writes name positions.)  The function is total: every input yields
a state, no case throws. -/
def layout2 (sc : Score) (sys : System) : System :=
  if sys.hasVBox then
    { sys with bboxHeight := sys.vboxHeight }
  else
    let sys0 := { sys with posX := 0, posY := 0 }
    let vis := visibleIdx sc sys0
    let sys1 := { sys0 with staves := clearHidden sc 0 sys0.staves }
    if h : vis = [] then
      sys1
    else
      let sys2 := layout2Loop sc vis 0 sys1
      let hgt := (sys2.sysStaffAt (vis.getLast h)).bbox.bottom
      let sys3 :=
        { sys2 with
          systemHeight := hgt
          bboxHeight := hgt
          ml := sys2.ml.map (setMeasureHeightMB sc.spatium hgt) }
      { sys3 with staves := layoutInstrumentNamesL sc.parts 0 sys3.staves }

/-- `System::restoreLayout2`: nothing on a frame-box system; otherwise
re-apply every record's saved vertical state and re-propagate the stored
system height to the bbox and the measures. -/
def restoreLayout2 (sc : Score) (sys : System) : System :=
  if sys.hasVBox then
    sys
  else
    { sys with
      staves := sys.staves.map SysStaff.restoreLayout
      bboxHeight := sys.systemHeight
      ml := sys.ml.map (setMeasureHeightMB sc.spatium sys.systemHeight) }

/-- The first shrink loop of `System::createBracket`:
`for (; firstStaff <= lastStaff; ++firstStaff) if (staff(firstStaff)->show()) break;` -/
def shrinkFirst (shown : ℤ → Bool) (first last : ℤ) : ℤ :=
  if h : first ≤ last ∧ shown first = false then
    shrinkFirst shown (first + 1) last
  else
    first
termination_by (last + 1 - first).toNat
decreasing_by
  obtain ⟨h1, -⟩ := h
  omega

/-- The second shrink loop of `System::createBracket`:
`for (; lastStaff >= firstStaff; --lastStaff) if (staff(lastStaff)->show()) break;` -/
def shrinkLast (shown : ℤ → Bool) (first last : ℤ) : ℤ :=
  if h : first ≤ last ∧ shown last = false then
    shrinkLast shown first (last - 1)
  else
    last
termination_by (last + 1 - first).toNat
decreasing_by
  obtain ⟨h1, -⟩ := h
  omega

/-- The visible span `createBracket` computes for a bracket starting at
`staffIdx` with declared span `declSpan`: the staff range is clamped to
the system (`lastStaff >= nstaves` pulls it to `nstaves - 1`), then
shrunk past hidden staves at both ends; the span is
`lastStaff - firstStaff + 1`. -/
def bracketVisibleSpan (shown : ℤ → Bool) (nstaves staffIdx declSpan : ℤ) : ℤ :=
  let lastStaff0 := staffIdx + declSpan - 1
  let lastStaff := if nstaves ≤ lastStaff0 then nstaves - 1 else lastStaff0
  let f := shrinkFirst shown staffIdx lastStaff
  let l := shrinkLast shown f lastStaff
  l - f + 1

/-- The visibility decision of `System::createBracket` (the bracket
object is created, reused and added exactly when this holds):
`span > 1 || bi->bracketSpan() == span || (span == 1 && alwaysShow...)`. -/
def createBracketVisible (shown : ℤ → Bool) (nstaves staffIdx declSpan : ℤ)
    (alwaysShow : Bool) : Bool :=
  let lastStaff0 := staffIdx + declSpan - 1
  let lastStaff := if nstaves ≤ lastStaff0 then nstaves - 1 else lastStaff0
  let f := shrinkFirst shown staffIdx lastStaff
  let l := shrinkLast shown f lastStaff
  let span := l - f + 1
  decide (1 < span) || decide (declSpan = span) || (decide (span = 1) && alwaysShow)

/-- The fields of a laid-out `Bracket` read and written by
`System::setBracketsXPosition`: the (already shrunk) staff span, the
nesting column, the width, and the x position it writes. -/
structure Bracket where
  firstStaff : ℕ
  lastStaff : ℕ
  column : ℕ
  width : ℚ
  xpos : ℚ
deriving DecidableEq, Repr

/-- `System::setBracketsXPosition(xPosition)`: each bracket `b1` is
offset leftward by `b2->width() + bracketDistance` for every bracket
`b2` of a smaller column whose staff range contains `b1`'s first or last
staff, and placed at `xPosition - xOffset - b1->width()`. -/
def setBracketsXPosition (bracketDistance xPosition : ℚ)
    (brackets : List Bracket) : List Bracket :=
  brackets.map fun b1 =>
    let xOffset :=
      (brackets.filter fun b2 =>
        decide (b2.column < b1.column) &&
        ((decide (b2.firstStaff ≤ b1.firstStaff) && decide (b1.firstStaff ≤ b2.lastStaff)) ||
         (decide (b2.firstStaff ≤ b1.lastStaff) && decide (b1.lastStaff ≤ b2.lastStaff)))).foldl
        (fun acc b2 => acc + b2.width + bracketDistance) 0
    { b1 with xpos := xPosition - xOffset - b1.width }

/-- The x position claim C8 ascribes to `setBracketsXPosition`, written
from the claim's words: the offset of `b1` grows by the width plus the
bracket distance of each bracket in a HIGHER-numbered column whose staff
range overlaps `b1`'s range. -/
def claimBracketX (bracketDistance xPosition : ℚ) (brackets : List Bracket)
    (b1 : Bracket) : ℚ :=
  let xOffset :=
    ((brackets.filter fun b2 =>
        decide (b1.column < b2.column) &&
        decide (b1.firstStaff ≤ b2.lastStaff) && decide (b2.firstStaff ≤ b1.lastStaff)).map
      fun b2 => b2.width + bracketDistance).sum
  xPosition - xOffset - b1.width

/-- The x position of the amended claim C8, written from the amended
words: the offset of `b1` is the sum of width plus bracket distance over
the brackets in a LOWER-numbered column whose staff range contains
`b1`'s first or last staff. -/
def amendedBracketX (bracketDistance xPosition : ℚ) (brackets : List Bracket)
    (b1 : Bracket) : ℚ :=
  let xOffset :=
    ((brackets.filter fun b2 =>
        decide (b2.column < b1.column) &&
        ((decide (b2.firstStaff ≤ b1.firstStaff) && decide (b1.firstStaff ≤ b2.lastStaff)) ||
         (decide (b2.firstStaff ≤ b1.lastStaff) && decide (b1.lastStaff ≤ b2.lastStaff)))).map
      fun b2 => b2.width + bracketDistance).sum
  xPosition - xOffset - b1.width

/-- The score state as seen by `System::totalBracketOffset`: the
`hideEmptyStaves` style flag it saves and restores, plus everything else
the nested `layoutBrackets` call may read or write, kept abstract as a
value of an arbitrary type `α`. -/
structure BracketScoreState (α : Type) where
  hideEmptyStaves : Bool
  restState : α

/-- `System::totalBracketOffset`: read `hideEmptyStaves`, force it to
`false`, run `layoutBrackets` (an arbitrary state transformer returning
the width), then write the saved value back and return the width.  The
behaviour of `layoutBrackets` is universally quantified in the theorems,
so the frame property holds whatever the callee does to the state. -/
def totalBracketOffsetM {α : Type}
    (layoutBrackets : BracketScoreState α → ℚ × BracketScoreState α)
    (s : BracketScoreState α) : ℚ × BracketScoreState α :=
  let hideEmptyStaves := s.hideEmptyStaves
  let s1 : BracketScoreState α := { s with hideEmptyStaves := false }
  let r := layoutBrackets s1
  (r.1, { r.2 with hideEmptyStaves := hideEmptyStaves })

/-! ## Concrete example inputs used by witnesses and counterexamples -/

/-- A plain measure with no spacers. -/
def mbNone : MeasureBase :=
  { kind := MeasureKind.measure, width := 20, bbox := RectF.zero,
    vspacerDown := fun _ => none, vspacerUp := fun _ => none }

/-- A measure carrying a FIXED down-spacer of gap 3 on staff 0. -/
def mbFixedEx : MeasureBase :=
  { kind := MeasureKind.measure, width := 20, bbox := RectF.zero,
    vspacerDown := fun j => if j = 0 then some ⟨true, 3⟩ else none,
    vspacerUp := fun _ => none }

/-- A five-line staff of height 40 in part 0. -/
def stdStaff : Staff :=
  { visible := true, lines := 5, height := 40, userDist := 0, partIdx := 0, mag := 1 }

/-- A five-line staff of height 40 in part 1. -/
def stdStaff2 : Staff :=
  { visible := true, lines := 5, height := 40, userDist := 0, partIdx := 1, mag := 1 }

/-- A blank visible staff record. -/
def ssBlank : SysStaff :=
  { bbox := RectF.zero, yOff := 0, visible := true, continuousDist := 0,
    savedHeight := 0, savedYPos := 0, instrumentNames := [] }

/-- A hidden staff record carrying a stale saved layout (the staff was
visible, and saved, in some earlier pass, and was hidden afterwards). -/
def ssStale : SysStaff :=
  { bbox := RectF.zero, yOff := 0, visible := false, continuousDist := 0,
    savedHeight := 12, savedYPos := 7, instrumentNames := [] }

/-- A two-part, two-staff score whose configured staff distance (0) is
smaller than its configured minimum vertical distance (2). -/
def scEx : Score :=
  { staves := [stdStaff, stdStaff2], parts := [1, 1],
    minVerticalDistance := 2, staffDistance := 0, akkoladeDistance := 3,
    minStaffSpread := 5, enableVerticalSpread := false, lineMode := false,
    spatium := 1, barlineSpan1From := -4, barlineSpan1To := 4 }

/-- A two-staff system with one plain measure and empty skylines (the
skyline query returns the large negative no-constraint sentinel). -/
def sysEx : System :=
  { staves := [ssBlank, ssBlank], ml := [mbNone], leftMargin := 0,
    width := 100, systemHeight := 0, bboxHeight := 0, posX := 0, posY := 0,
    hasVBox := false, vboxHeight := 0, skylineDist := fun _ _ => -1000000 }

/-- `sysEx` with the lower staff record hidden while it still carries a
stale saved layout. -/
def sysStaleEx : System := { sysEx with staves := [ssBlank, ssStale] }

/-! ## Lemmas about the spacer scan -/

theorem spacerScan_fixed (si1 si2 : ℕ) (h G : ℚ) :
    ∀ (l post : List MeasureBase), firstFixedGap l si1 = some G →
      ∀ dist, spacerScan si1 si2 h (l ++ post) dist = (h + G, true) := by
  intro l
  induction l with
  | nil => intro post hG; simp [firstFixedGap] at hG
  | cons mb rest ih =>
    intro post hG dist
    by_cases hk : mb.kind = MeasureKind.measure
    · cases hd : mb.vspacerDown si1 with
      | none =>
        simp only [firstFixedGap, hk, if_true, hd] at hG
        simp only [List.cons_append, spacerScan, hk, if_true, hd]
        exact ih post hG _
      | some sp =>
        simp only [firstFixedGap, hk, if_true, hd] at hG
        cases hf : sp.isFixed with
        | true =>
          rw [hf] at hG
          simp at hG
          simp only [List.cons_append, spacerScan, hk, if_true, hd, hf, if_pos rfl]
          rw [hG]
        | false =>
          rw [hf] at hG
          simp only [Bool.false_eq_true, if_false] at hG
          simp only [List.cons_append, spacerScan, hk, if_true, hd, hf,
            Bool.false_eq_true, if_false]
          exact ih post hG _
    · simp only [firstFixedGap, hk, if_false] at hG
      simp only [List.cons_append, spacerScan, hk, if_false]
      exact ih post hG _

theorem spacerScan_noFixed_snd (si1 si2 : ℕ) (h : ℚ) :
    ∀ (l : List MeasureBase), firstFixedGap l si1 = none →
      ∀ dist, (spacerScan si1 si2 h l dist).2 = false := by
  intro l
  induction l with
  | nil => intro _ dist; simp [spacerScan]
  | cons mb rest ih =>
    intro hG dist
    by_cases hk : mb.kind = MeasureKind.measure
    · cases hd : mb.vspacerDown si1 with
      | none =>
        simp only [firstFixedGap, hk, if_true, hd] at hG
        simp only [spacerScan, hk, if_true, hd]
        exact ih hG _
      | some sp =>
        simp only [firstFixedGap, hk, if_true, hd] at hG
        cases hf : sp.isFixed with
        | true =>
          rw [hf] at hG
          simp at hG
        | false =>
          rw [hf] at hG
          simp only [Bool.false_eq_true, if_false] at hG
          simp only [spacerScan, hk, if_true, hd, hf, Bool.false_eq_true, if_false]
          exact ih hG _
    · simp only [firstFixedGap, hk, if_false] at hG
      simp only [spacerScan, hk, if_false]
      exact ih hG _

theorem spacerScan_init_le (si1 si2 : ℕ) (h : ℚ) :
    ∀ (l : List MeasureBase), firstFixedGap l si1 = none →
      ∀ dist, dist ≤ (spacerScan si1 si2 h l dist).1 := by
  intro l
  induction l with
  | nil => intro _ dist; simp [spacerScan]
  | cons mb rest ih =>
    intro hG dist
    by_cases hk : mb.kind = MeasureKind.measure
    · cases hd : mb.vspacerDown si1 with
      | none =>
        simp only [firstFixedGap, hk, if_true, hd] at hG
        simp only [spacerScan, hk, if_true, hd]
        cases hu : mb.vspacerUp si2 with
        | none => exact ih hG _
        | some sp2 =>
          exact le_trans (le_max_left _ _) (ih hG (max dist (sp2.gap + h)))
      | some sp =>
        simp only [firstFixedGap, hk, if_true, hd] at hG
        cases hf : sp.isFixed with
        | true =>
          rw [hf] at hG
          simp at hG
        | false =>
          rw [hf] at hG
          simp only [Bool.false_eq_true, if_false] at hG
          simp only [spacerScan, hk, if_true, hd, hf, Bool.false_eq_true, if_false]
          cases hu : mb.vspacerUp si2 with
          | none => exact le_trans (le_max_left _ _) (ih hG _)
          | some sp2 =>
            exact le_trans (le_trans (le_max_left _ _) (le_max_left _ _)) (ih hG _)
    · simp only [firstFixedGap, hk, if_false] at hG
      simp only [spacerScan, hk, if_false]
      exact ih hG _

theorem spacerScan_floor (si1 si2 : ℕ) (h : ℚ) :
    ∀ (l : List MeasureBase), firstFixedGap l si1 = none →
      ∀ dist, ∀ mb ∈ l, mb.kind = MeasureKind.measure →
        (∀ sp, mb.vspacerDown si1 = some sp →
          h + sp.gap ≤ (spacerScan si1 si2 h l dist).1) ∧
        (∀ sp2, mb.vspacerUp si2 = some sp2 →
          sp2.gap + h ≤ (spacerScan si1 si2 h l dist).1) := by
  intro l
  induction l with
  | nil => intro _ _ mb hmb; exact absurd hmb (List.not_mem_nil mb)
  | cons mb0 rest ih =>
    intro hG dist mb hmb hk
    by_cases hk0 : mb0.kind = MeasureKind.measure
    · cases hd : mb0.vspacerDown si1 with
      | none =>
        simp only [firstFixedGap, hk0, if_true, hd] at hG
        simp only [spacerScan, hk0, if_true, hd]
        rcases List.mem_cons.mp hmb with rfl | hmem
        · constructor
          · intro sp hsp; rw [hsp] at hd; exact absurd hd (by simp)
          · intro sp2 hsp2
            rw [hsp2]
            exact le_trans (le_max_right _ _) (spacerScan_init_le si1 si2 h rest hG _)
        · cases hu : mb0.vspacerUp si2 with
          | none => exact ih hG _ mb hmem hk
          | some sp2 => exact ih hG _ mb hmem hk
      | some sp0 =>
        simp only [firstFixedGap, hk0, if_true, hd] at hG
        cases hf : sp0.isFixed with
        | true =>
          rw [hf] at hG
          simp at hG
        | false =>
          rw [hf] at hG
          simp only [Bool.false_eq_true, if_false] at hG
          simp only [spacerScan, hk0, if_true, hd, hf, Bool.false_eq_true, if_false]
          rcases List.mem_cons.mp hmb with rfl | hmem
          · constructor
            · intro sp hsp
              rw [hd] at hsp
              injection hsp with hsp
              subst hsp
              cases hu : mb.vspacerUp si2 with
              | none =>
                simp only [hu]
                exact le_trans (le_max_right _ _) (spacerScan_init_le si1 si2 h rest hG _)
              | some sp2 =>
                simp only [hu]
                exact le_trans (le_trans (le_max_right _ _) (le_max_left _ _))
                  (spacerScan_init_le si1 si2 h rest hG _)
            · intro sp2 hsp2
              rw [hsp2]
              exact le_trans (le_max_right _ _) (spacerScan_init_le si1 si2 h rest hG _)
          · cases hu : mb0.vspacerUp si2 with
            | none => exact ih hG _ mb hmem hk
            | some sp2 => exact ih hG _ mb hmem hk
    · simp only [firstFixedGap, hk0, if_false] at hG
      simp only [spacerScan, hk0, if_false]
      rcases List.mem_cons.mp hmb with rfl | hmem
      · exact absurd hk hk0
      · exact ih hG _ mb hmem hk

/-- The distance `layout2` has accumulated before the spacer scan: the
upper staff's height, plus the akkolade distance (scaled by the staff
magnification when the system has a measure) when the staves share a
part, else the staff distance, plus the lower staff's user distance. -/
def baseDist (sc : Score) (ml : List MeasureBase) (si1 si2 : ℕ) : ℚ :=
  let st := sc.staffAt si1
  let st2 := sc.staffAt si2
  (if st.partIdx = st2.partIdx then
    st.height + sc.effAkkoladeDistance *
      (if ml.any fun mb => mb.kind = MeasureKind.measure then st.mag else 1)
  else
    st.height + sc.effStaffDistance) + st2.userDist

theorem staffPairDist_eq (sc : Score) (ml : List MeasureBase) (si1 si2 : ℕ)
    (prevCD d : ℚ) :
    staffPairDist sc ml si1 si2 prevCD d =
      match spacerScan si1 si2 (sc.staffAt si1).height ml (baseDist sc ml si1 si2) with
      | (dist3, true) => (dist3, prevCD)
      | (dist3, false) =>
        if sc.lineMode then
          if d > prevCD then
            (max dist3 (d + sc.minVerticalDistance), d)
          else
            (max dist3 (prevCD + sc.minVerticalDistance), prevCD)
        else
          (max dist3 (d + sc.minVerticalDistance), prevCD) := rfl

/-! ## C1 -/

/-- C1: in the `layout2` distance computation for the adjacent visible
staff pair (si1 above, si2 below), if the measure scan reaches a FIXED
down-spacer of gap G on staff si1 (hypothesis: G is the gap of the first
such spacer in the scanned prefix `pre`), then the computed inter-staff
distance is exactly the upper staff's height plus G — the gap below the
upper staff is exactly G — whatever measures follow the spacer (`post`
is arbitrary: the scan stops there), whatever the skyline query returns
(`d` is arbitrary: the skyline minimum is not applied, even when it
would be larger), and the remembered continuous distance is left
untouched. -/
theorem layout2_fixed_down_spacer_exact (sc : Score) (pre post : List MeasureBase)
    (si1 si2 : ℕ) (prevCD d G : ℚ)
    (hG : firstFixedGap pre si1 = some G) :
    staffPairDist sc (pre ++ post) si1 si2 prevCD d
      = ((sc.staffAt si1).height + G, prevCD) := by
  rw [staffPairDist_eq,
    spacerScan_fixed si1 si2 (sc.staffAt si1).height G pre post hG]

/-- Witness for C1: a FIXED down-spacer of gap 3 on staff 0 in the first
measure forces the distance to 40 + 3 = 43 (staff height 40), ignoring
a huge skyline value of 999 and leaving the remembered distance 5. -/
theorem layout2_fixed_down_spacer_exact_witness :
    staffPairDist scEx [mbFixedEx, mbNone] 0 1 5 999 = (43, 5) := by
  have h := layout2_fixed_down_spacer_exact scEx [mbFixedEx] [mbNone] 0 1 5 999 3
    (by simp [firstFixedGap, mbFixedEx])
  exact h.trans (by norm_num [scEx, Score.staffAt, stdStaff, Prod.ext_iff])

/-! ## C2 -/

/-- Counterexample to C2 as stated: a two-staff system (both staves
visible, no FIXED spacer anywhere) whose configured staff distance is 0,
whose skylines are empty (the query returns the no-constraint sentinel
-1000000), and whose configured minimum vertical distance is 2.  After
`layout2` the vertical gap between the two adjacent visible staves'
boxes is 0, which is smaller than the configured minimum vertical
distance. -/
theorem layout2_min_vertical_distance_counterexample :
    (visibleIdx scEx sysEx).length = 2 ∧
    firstFixedGap sysEx.ml 0 = none ∧
    ((layout2 scEx sysEx).sysStaffAt 1).bbox.y
        - ((layout2 scEx sysEx).sysStaffAt 0).bbox.bottom = 0 ∧
    ¬(scEx.minVerticalDistance ≤
      ((layout2 scEx sysEx).sysStaffAt 1).bbox.y
        - ((layout2 scEx sysEx).sysStaffAt 0).bbox.bottom) := by
  refine ⟨by decide, by simp [firstFixedGap, sysEx, mbNone], ?_, ?_⟩ <;>
  norm_num [layout2, visibleIdx, layout2Loop, staffPairDist, spacerScan, clearHidden,
    layoutInstrumentNamesL, migratePart, firstVisibleInRange, setMeasureHeightMB,
    System.setStaff, System.sysStaffAt, Score.staffAt, listModify, scEx, sysEx, mbNone,
    stdStaff, stdStaff2, ssBlank, staffGeom, Score.effStaffDistance,
    Score.effAkkoladeDistance, SysStaff.saveLayout, RectF.bottom, RectF.zero,
    List.range_succ, List.filter, List.cons_ne_nil, List.get?, Option.getD,
    List.getLast, firstFixedGap, baseDist]

/-- C2 as amended: with no FIXED down-spacer at the boundary, the
distance `layout2` advances between the upper staff (si1) and the lower
staff (si2) is at least each of: the base distance (upper staff height
plus akkolade/staff distance plus the lower staff's user distance),
the upper staff's height plus every elastic spacer gap at the boundary
(down-spacers on si1 and up-spacers on si2), and the skyline-derived
distance plus the configured minimum vertical distance.  Consequently
the gap between the staff boxes is at least the minimum vertical
distance whenever the skyline-derived distance is at least the upper
staff's height (as holds when the staff's own lines are in the
skyline); without that proviso the gap can be smaller (see the
counterexample). -/
theorem layout2_pair_dist_lower_bounds (sc : Score) (ml : List MeasureBase)
    (si1 si2 : ℕ) (prevCD d : ℚ) (hnf : firstFixedGap ml si1 = none) :
    baseDist sc ml si1 si2 ≤ (staffPairDist sc ml si1 si2 prevCD d).1 ∧
    (∀ mb ∈ ml, mb.kind = MeasureKind.measure →
      (∀ sp, mb.vspacerDown si1 = some sp →
        (sc.staffAt si1).height + sp.gap ≤ (staffPairDist sc ml si1 si2 prevCD d).1) ∧
      (∀ sp2, mb.vspacerUp si2 = some sp2 →
        sp2.gap + (sc.staffAt si1).height ≤ (staffPairDist sc ml si1 si2 prevCD d).1)) ∧
    d + sc.minVerticalDistance ≤ (staffPairDist sc ml si1 si2 prevCD d).1 ∧
    ((sc.staffAt si1).height ≤ d →
      (sc.staffAt si1).height + sc.minVerticalDistance
        ≤ (staffPairDist sc ml si1 si2 prevCD d).1) := by
  rcases hscan : spacerScan si1 si2 (sc.staffAt si1).height ml (baseDist sc ml si1 si2)
    with ⟨v, b⟩
  have hb : b = false := by
    have h2 := spacerScan_noFixed_snd si1 si2 (sc.staffAt si1).height ml hnf
      (baseDist sc ml si1 si2)
    rw [hscan] at h2
    exact h2
  subst hb
  have hbase : baseDist sc ml si1 si2 ≤ v := by
    have h2 := spacerScan_init_le si1 si2 (sc.staffAt si1).height ml hnf
      (baseDist sc ml si1 si2)
    rw [hscan] at h2
    exact h2
  have hEff : ∃ e : ℚ, d ≤ e ∧
      (staffPairDist sc ml si1 si2 prevCD d).1 = max v (e + sc.minVerticalDistance) := by
    rw [staffPairDist_eq, hscan]
    by_cases hl : sc.lineMode
    · by_cases hdp : d > prevCD
      · exact ⟨d, le_refl d, by simp [hl, hdp]⟩
      · exact ⟨prevCD, le_of_not_lt hdp, by simp [hl, hdp]⟩
    · exact ⟨d, le_refl d, by simp [hl]⟩
  obtain ⟨e, hde, heq⟩ := hEff
  rw [heq]
  refine ⟨le_trans hbase (le_max_left _ _), ?_, ?_, ?_⟩
  · intro mb hmb hk
    have hfl := spacerScan_floor si1 si2 (sc.staffAt si1).height ml hnf
      (baseDist sc ml si1 si2) mb hmb hk
    rw [hscan] at hfl
    exact ⟨fun sp hsp => le_trans (hfl.1 sp hsp) (le_max_left _ _),
           fun sp2 hsp2 => le_trans (hfl.2 sp2 hsp2) (le_max_left _ _)⟩
  · exact le_trans (by linarith) (le_max_right _ _)
  · intro hh
    exact le_trans (by linarith) (le_max_right _ _)

/-- Witness for C2 (amended) on the concrete example: distance 40,
base distance 40, skyline bound -1000000 + 2 ≤ 40. -/
theorem layout2_pair_dist_lower_bounds_witness :
    (staffPairDist scEx [mbNone] 0 1 0 (-1000000)).1 = 40 ∧
    baseDist scEx [mbNone] 0 1 ≤ (staffPairDist scEx [mbNone] 0 1 0 (-1000000)).1 ∧
    (-1000000 : ℚ) + scEx.minVerticalDistance
      ≤ (staffPairDist scEx [mbNone] 0 1 0 (-1000000)).1 := by
  have h := layout2_pair_dist_lower_bounds scEx [mbNone] 0 1 0 (-1000000)
    (by simp [firstFixedGap, mbNone])
  refine ⟨?_, h.1, h.2.2.1⟩
  norm_num [layout2, visibleIdx, layout2Loop, staffPairDist, spacerScan, clearHidden,
    layoutInstrumentNamesL, migratePart, firstVisibleInRange, setMeasureHeightMB,
    System.setStaff, System.sysStaffAt, Score.staffAt, listModify, scEx, sysEx, mbNone,
    stdStaff, stdStaff2, ssBlank, staffGeom, Score.effStaffDistance,
    Score.effAkkoladeDistance, SysStaff.saveLayout, RectF.bottom, RectF.zero,
    List.range_succ, List.filter, List.cons_ne_nil, List.get?, Option.getD,
    List.getLast, firstFixedGap, baseDist]

/-! ## C3 -/

/-- C3: in continuous (line) view with no FIXED spacer at the boundary,
one `layout2` pass stores `max prevCD d` as the new remembered
continuous distance of the upper staff's record — i.e. it stores the
skyline-derived distance `d` only when it exceeds the previously
remembered value `prevCD`, and keeps `prevCD` otherwise — so the
remembered value never decreases; and a following pass fed with that
remembered value (and an arbitrary new partial-skyline value `d2`)
computes a distance at least as large as the current pass's, so the
resulting gap for the staff pair never shrinks between passes. -/
theorem layout2_continuous_dist_monotone (sc : Score) (ml : List MeasureBase)
    (si1 si2 : ℕ) (prevCD d : ℚ)
    (hline : sc.lineMode = true) (hnf : firstFixedGap ml si1 = none) :
    (staffPairDist sc ml si1 si2 prevCD d).2 = max prevCD d ∧
    prevCD ≤ (staffPairDist sc ml si1 si2 prevCD d).2 ∧
    (∀ d2, (staffPairDist sc ml si1 si2 prevCD d).1 ≤
        (staffPairDist sc ml si1 si2 ((staffPairDist sc ml si1 si2 prevCD d).2) d2).1 ∧
      (staffPairDist sc ml si1 si2 prevCD d).2 ≤
        (staffPairDist sc ml si1 si2 ((staffPairDist sc ml si1 si2 prevCD d).2) d2).2) := by
  rcases hscan : spacerScan si1 si2 (sc.staffAt si1).height ml (baseDist sc ml si1 si2)
    with ⟨v, b⟩
  have hb : b = false := by
    have h2 := spacerScan_noFixed_snd si1 si2 (sc.staffAt si1).height ml hnf
      (baseDist sc ml si1 si2)
    rw [hscan] at h2
    exact h2
  subst hb
  have hpair : ∀ p dd : ℚ, staffPairDist sc ml si1 si2 p dd =
      if dd > p then (max v (dd + sc.minVerticalDistance), dd)
      else (max v (p + sc.minVerticalDistance), p) := by
    intro p dd
    rw [staffPairDist_eq, hscan]
    simp [hline]
  have hsnd : (staffPairDist sc ml si1 si2 prevCD d).2 = max prevCD d := by
    rw [hpair]
    by_cases hdp : d > prevCD
    · simp [hdp, max_eq_right (le_of_lt hdp)]
    · simp [hdp, max_eq_left (le_of_not_lt hdp)]
  refine ⟨hsnd, by rw [hsnd]; exact le_max_left _ _, ?_⟩
  intro d2
  constructor
  · rw [hsnd, hpair prevCD d, hpair (max prevCD d) d2]
    by_cases h2 : d2 > max prevCD d
    · by_cases hdp : d > prevCD
      · simp only [hdp, if_true]
        simp only [h2, if_true]
        have : d ≤ d2 := le_trans (le_max_right prevCD d) (le_of_lt h2)
        exact max_le_max (le_refl v) (by linarith)
      · simp only [hdp, if_false]
        simp only [h2, if_true]
        have : prevCD ≤ d2 := le_trans (le_max_left prevCD d) (le_of_lt h2)
        exact max_le_max (le_refl v) (by linarith)
    · by_cases hdp : d > prevCD
      · simp only [hdp, if_true]
        simp only [h2, if_false]
        have : d ≤ max prevCD d := le_max_right prevCD d
        exact max_le_max (le_refl v) (by linarith)
      · simp only [hdp, if_false]
        simp only [h2, if_false]
        have : prevCD ≤ max prevCD d := le_max_left prevCD d
        exact max_le_max (le_refl v) (by linarith)
  · rw [hsnd, hpair (max prevCD d) d2]
    by_cases h2 : d2 > max prevCD d
    · simp only [h2, if_true]
      exact le_of_lt h2
    · simp only [h2, if_false]
      exact le_refl _

/-- Witness for C3 at concrete inputs (continuous-view version of the
example score): the pass with remembered value 10 and skyline 50 stores
50; a next pass with skyline 20 keeps 50 and does not shrink. -/
theorem layout2_continuous_dist_monotone_witness :
    (staffPairDist { scEx with lineMode := true } [mbNone] 0 1 10 50).2 = 50 ∧
    (10 : ℚ) ≤ (staffPairDist { scEx with lineMode := true } [mbNone] 0 1 10 50).2 ∧
    (staffPairDist { scEx with lineMode := true } [mbNone] 0 1 10 50).1 ≤
      (staffPairDist { scEx with lineMode := true } [mbNone] 0 1
        ((staffPairDist { scEx with lineMode := true } [mbNone] 0 1 10 50).2) 20).1 := by
  have h := layout2_continuous_dist_monotone { scEx with lineMode := true } [mbNone]
    0 1 10 50 rfl (by simp [firstFixedGap, mbNone])
  exact ⟨h.1.trans (by norm_num), h.2.1, (h.2.2 20).1⟩

/-! ## C4 -/

/-- C4: `createBracket` creates (shows) a bracket instance exactly when,
after clamping its staff range to the system and shrinking it past
hidden staves at both ends, the resulting visible span is at least 2, or
its declared span equals the visible span, or the visible span is
exactly 1 and the `alwaysShowBracketsWhenEmptyStavesAreHidden` policy is
set.  In particular a bracket reduced to visible span 1 by hidden staves
is hidden unless the policy is active or its declared span is 1 (the
only way `declSpan = visible span` can hold there). -/
theorem createBracket_visible_iff (shown : ℤ → Bool) (nstaves staffIdx declSpan : ℤ)
    (alwaysShow : Bool) :
    createBracketVisible shown nstaves staffIdx declSpan alwaysShow = true ↔
      (1 < bracketVisibleSpan shown nstaves staffIdx declSpan ∨
       declSpan = bracketVisibleSpan shown nstaves staffIdx declSpan ∨
       (bracketVisibleSpan shown nstaves staffIdx declSpan = 1 ∧ alwaysShow = true)) := by
  unfold createBracketVisible bracketVisibleSpan
  cases alwaysShow <;> (simp [Bool.or_eq_true, decide_eq_true_eq]; try omega)

/-! ## C8 -/

theorem foldl_width_sum (bd : ℚ) (l : List Bracket) : ∀ a : ℚ,
    l.foldl (fun acc b2 => acc + b2.width + bd) a
      = a + (l.map fun b2 => b2.width + bd).sum := by
  induction l with
  | nil => intro a; simp
  | cons b t ih =>
    intro a
    rw [List.foldl_cons, ih, List.map_cons, List.sum_cons]
    ring

/-- Concrete bracket in column 0 spanning staves 0-1, width 10. -/
def brkA : Bracket := ⟨0, 1, 0, 10, 0⟩

/-- Concrete bracket in column 1 spanning staves 0-1, width 5. -/
def brkB : Bracket := ⟨0, 1, 1, 5, 0⟩

/-- Counterexample to C8 as stated: with brackets `brkA` (column 0,
staves 0-1, width 10) and `brkB` (column 1, same staves, width 5),
bracket distance 1 and x = 100, the code places them at 90 and 84; the
claim's formula (offset by HIGHER-numbered-column overlapping brackets)
predicts 84 and 95.  The claim is wrong already on the first bracket:
90 is not 84. -/
theorem setBracketsXPosition_claim_false :
    (setBracketsXPosition 1 100 [brkA, brkB]).map Bracket.xpos = [90, 84] ∧
    [brkA, brkB].map (claimBracketX 1 100 [brkA, brkB]) = [84, 95] ∧
    ((90 : ℚ) ≠ 84) := by
  refine ⟨?_, ?_, by norm_num⟩ <;>
  norm_num [setBracketsXPosition, claimBracketX, brkA, brkB, List.filter,
    foldl_width_sum, List.sum_cons, List.sum_nil]

/-- C8 as amended: `setBracketsXPosition(x)` places every bracket
right-to-left from x — each bracket's final left edge is x minus its own
width minus an accumulated offset — where the offset is the sum of the
width plus the configured bracket distance of each LOWER-numbered-column
bracket whose staff range contains the placed bracket's first or last
staff. -/
theorem setBracketsXPosition_amended (bd x : ℚ) (brackets : List Bracket) :
    (setBracketsXPosition bd x brackets).map Bracket.xpos =
      brackets.map (amendedBracketX bd x brackets) := by
  unfold setBracketsXPosition amendedBracketX
  rw [List.map_map]
  congr 1
  funext b1
  simp only [Function.comp_apply]
  rw [foldl_width_sum]
  ring

/-! ## C9 -/

/-- C9: `System::staff(staffIdx)` returns the per-staff record whenever
`0 ≤ staffIdx < _staves.size()` (and that result is non-null), and
returns null for every negative or too-large index, performing no
out-of-bounds access. -/
theorem System_staff_bounds (sys : System) (staffIdx : ℤ) :
    (0 ≤ staffIdx ∧ staffIdx < (sys.staves.length : ℤ) →
      sys.staff staffIdx = sys.staves.get? staffIdx.toNat ∧
      (sys.staff staffIdx).isSome = true) ∧
    (staffIdx < 0 ∨ (sys.staves.length : ℤ) ≤ staffIdx →
      sys.staff staffIdx = none) := by
  constructor
  · intro hin
    unfold System.staff
    rw [if_pos hin]
    have hlt : staffIdx.toNat < sys.staves.length := by omega
    refine ⟨rfl, ?_⟩
    rw [List.get?_eq_get hlt]
    rfl
  · intro hout
    unfold System.staff
    rw [if_neg (by omega)]

/-- Witness for C9 on a concrete two-staff system: index 1 is returned
non-null, indices -1 and 2 give null. -/
theorem System_staff_bounds_witness :
    sysEx.staff 1 = sysEx.staves.get? 1 ∧ (sysEx.staff 1).isSome = true ∧
    sysEx.staff (-1) = none ∧ sysEx.staff 2 = none := by
  refine ⟨((System_staff_bounds sysEx 1).1 (by decide)).1,
    ((System_staff_bounds sysEx 1).1 (by decide)).2,
    (System_staff_bounds sysEx (-1)).2 (by decide),
    (System_staff_bounds sysEx 2).2 (by decide)⟩

/-! ## C10 -/

/-- C10: `totalBracketOffset` forces `hideEmptyStaves` to false for the
nested `layoutBrackets` computation and always restores the prior value
before returning: whatever `layoutBrackets` does to the score state, the
`hideEmptyStaves` setting after the call equals its value before the
call, the nested computation sees it as false, and the returned width is
the nested computation's result. -/
theorem totalBracketOffset_restores_hideEmptyStaves {α : Type}
    (layoutBrackets : BracketScoreState α → ℚ × BracketScoreState α)
    (s : BracketScoreState α) :
    (totalBracketOffsetM layoutBrackets s).2.hideEmptyStaves = s.hideEmptyStaves ∧
    ({ s with hideEmptyStaves := false } : BracketScoreState α).hideEmptyStaves = false ∧
    (totalBracketOffsetM layoutBrackets s).1
      = (layoutBrackets { s with hideEmptyStaves := false }).1 := by
  exact ⟨rfl, rfl, rfl⟩

/-! ## C6 -/

theorem clearHidden_all (sc : Score) :
    ∀ (l : List SysStaff) (k : ℕ),
      (∀ i (h : i < l.length),
        ¬((sc.staffAt (k + i)).visible = true ∧ (l.get ⟨i, h⟩).visible = true)) →
      clearHidden sc k l = l.map (fun ss => { ss with bbox := RectF.zero }) := by
  intro l
  induction l with
  | nil => intro k _; rfl
  | cons ss rest ih =>
    intro k hall
    have h0 := hall 0 (by simp)
    simp only [Nat.add_zero, List.get] at h0
    have hcond : ((sc.staffAt k).visible && ss.visible) = false := by
      cases hA : (sc.staffAt k).visible with
      | false => rfl
      | true =>
        cases hB : ss.visible with
        | false => rfl
        | true => exact absurd ⟨hA, hB⟩ h0
    simp only [clearHidden, hcond, Bool.false_eq_true, if_false, List.map_cons,
      List.cons.injEq]
    refine ⟨trivial, ih (k + 1) ?_⟩
    intro i hi
    have := hall (i + 1) (by simpa using Nat.succ_lt_succ hi)
    simpa [Nat.add_assoc, Nat.add_comm 1 i] using this

/-- C6: on a system that is not a frame-box system and has zero visible
staves, `layout2` is a no-op beyond resetting the position and clearing
the (all invisible) staves' bounding boxes: the full resulting state is
the input with position (0,0) and cleared bboxes, so in particular no
system height is set, the measure list is untouched, and every other
staff-record field is untouched.  The embedding is a total function, so
the pass never throws or aborts. -/
theorem layout2_zero_visible_noop (sc : Score) (sys : System)
    (hv : sys.hasVBox = false) (h0 : visibleIdx sc sys = []) :
    layout2 sc sys = { sys with
      posX := 0
      posY := 0
      staves := sys.staves.map (fun ss => { ss with bbox := RectF.zero }) } ∧
    (layout2 sc sys).systemHeight = sys.systemHeight ∧
    (layout2 sc sys).bboxHeight = sys.bboxHeight ∧
    (layout2 sc sys).ml = sys.ml := by
  have hmain : layout2 sc sys = { sys with
      posX := 0
      posY := 0
      staves := sys.staves.map (fun ss => { ss with bbox := RectF.zero }) } := by
    have hclear : clearHidden sc 0 sys.staves
        = sys.staves.map (fun ss => { ss with bbox := RectF.zero }) := by
      refine clearHidden_all sc sys.staves 0 ?_
      intro i hi hcontra
      have hmem : i ∈ visibleIdx sc sys := by
        unfold visibleIdx
        refine List.mem_filter.mpr ⟨List.mem_range.mpr hi, ?_⟩
        have : (sys.sysStaffAt i).visible = true := by
          unfold System.sysStaffAt
          rw [List.get?_eq_get hi]
          exact hcontra.2
        simp only [Nat.zero_add] at hcontra
        rw [hcontra.1, this]
        rfl
      rw [h0] at hmem
      exact absurd hmem (List.not_mem_nil i)
    simp only [layout2, hv, Bool.false_eq_true, if_false]
    split
    · rw [hclear]
    · next hcond => exact absurd h0 hcond
  exact ⟨hmain, by rw [hmain], by rw [hmain], by rw [hmain]⟩

/-- A system whose two staff records are both hidden. -/
def sysHiddenEx : System := { sysEx with staves := [ssStale, ssStale] }

/-- Witness for C6 on a concrete all-hidden system. -/
theorem layout2_zero_visible_noop_witness :
    layout2 scEx sysHiddenEx = { sysHiddenEx with
      posX := 0
      posY := 0
      staves := sysHiddenEx.staves.map (fun ss => { ss with bbox := RectF.zero }) } ∧
    (layout2 scEx sysHiddenEx).systemHeight = sysHiddenEx.systemHeight := by
  have h := layout2_zero_visible_noop scEx sysHiddenEx rfl (by decide)
  exact ⟨h.1, h.2.1⟩

/-! ## C5 -/

theorem listModify_get? (f : α → α) :
    ∀ (n : ℕ) (l : List α) (j : ℕ),
      (listModify f n l).get? j = if n = j then (l.get? j).map f else l.get? j := by
  intro n l
  induction l generalizing n with
  | nil =>
    intro j
    cases n <;> simp [listModify]
  | cons x xs ih =>
    intro j
    cases n with
    | zero =>
      cases j with
      | zero => simp [listModify]
      | succ j => simp [listModify]
    | succ n =>
      cases j with
      | zero => simp [listModify]
      | succ j =>
        simp only [listModify, List.get?]
        rw [ih n j]
        by_cases h : n = j
        · simp [h]
        · simp [h, fun hh => h (Nat.succ_injective hh)]

theorem layout2Loop_get?_not_mem (sc : Score) :
    ∀ (l : List ℕ) (y : ℚ) (sys : System) (i : ℕ), i ∉ l →
      (layout2Loop sc l y sys).staves.get? i = sys.staves.get? i := by
  intro l
  induction l with
  | nil => intro y sys i _; rfl
  | cons si1 tl ih =>
    intro y sys i hi
    have hi1 : i ≠ si1 := fun h => hi (h ▸ List.mem_cons_self si1 tl)
    have hitl : i ∉ tl := fun h => hi (List.mem_cons_of_mem si1 h)
    cases tl with
    | nil =>
      simp only [layout2Loop, System.setStaff]
      rw [listModify_get?, if_neg (fun h => hi1 (Eq.symm h))]
    | cons si2 rest =>
      simp only [layout2Loop]
      rw [ih _ _ _ hitl]
      simp only [System.setStaff]
      rw [listModify_get?, if_neg (fun h => hi1 (Eq.symm h))]

theorem layout2Loop_ml (sc : Score) :
    ∀ (l : List ℕ) (y : ℚ) (sys : System), (layout2Loop sc l y sys).ml = sys.ml := by
  intro l
  induction l with
  | nil => intro y sys; rfl
  | cons si1 tl ih =>
    intro y sys
    cases tl with
    | nil => rfl
    | cons si2 rest => simp only [layout2Loop]; rw [ih]; rfl

theorem layout2Loop_hasVBox (sc : Score) :
    ∀ (l : List ℕ) (y : ℚ) (sys : System),
      (layout2Loop sc l y sys).hasVBox = sys.hasVBox := by
  intro l
  induction l with
  | nil => intro y sys; rfl
  | cons si1 tl ih =>
    intro y sys
    cases tl with
    | nil => rfl
    | cons si2 rest => simp only [layout2Loop]; rw [ih]; rfl

/-- The invariant `saveLayout` establishes: the saved vertical state
agrees with the bbox. -/
def savedMatches (ss : SysStaff) : Prop :=
  ss.savedYPos = ss.bbox.y ∧ ss.savedHeight = ss.bbox.h

theorem layout2Loop_savedMatches (sc : Score) :
    ∀ (l : List ℕ) (y : ℚ) (sys : System) (i : ℕ), l.Nodup → i ∈ l →
      ∀ ss, (layout2Loop sc l y sys).staves.get? i = some ss → savedMatches ss := by
  intro l
  induction l with
  | nil => intro y sys i _ hi; exact absurd hi (List.not_mem_nil i)
  | cons si1 tl ih =>
    intro y sys i hnd hi ss hss
    rcases List.mem_cons.mp hi with rfl | hmem
    · have hnotin : i ∉ tl := (List.nodup_cons.mp hnd).1
      cases tl with
      | nil =>
        simp only [layout2Loop, System.setStaff] at hss
        rw [listModify_get?] at hss
        simp only [if_pos rfl] at hss
        rcases Option.map_eq_some'.mp hss with ⟨ss0, _, rfl⟩
        exact ⟨rfl, rfl⟩
      | cons si2 rest =>
        simp only [layout2Loop] at hss
        rw [layout2Loop_get?_not_mem sc _ _ _ _ hnotin] at hss
        simp only [System.setStaff] at hss
        rw [listModify_get?] at hss
        simp only [if_pos rfl] at hss
        rcases Option.map_eq_some'.mp hss with ⟨ss0, _, rfl⟩
        exact ⟨rfl, rfl⟩
    · have htl : tl.Nodup := (List.nodup_cons.mp hnd).2
      cases tl with
      | nil => exact absurd hmem (List.not_mem_nil i)
      | cons si2 rest =>
        simp only [layout2Loop] at hss
        exact ih _ _ i htl hmem ss hss

/-- The vertical state of a record that `restoreLayout` reads and
`saveLayout` writes (bbox, saved y, saved height). -/
def vertState (ss : SysStaff) : RectF × ℚ × ℚ := (ss.bbox, ss.savedYPos, ss.savedHeight)

theorem migratePart_vertState (staves : List SysStaff) (start n i : ℕ) :
    ((migratePart staves start n).get? i).map vertState
      = (staves.get? i).map vertState := by
  cases hf : firstVisibleInRange staves start n with
  | none => simp only [migratePart, hf]
  | some v =>
    by_cases hveq : v = start
    · simp [migratePart, hf, hveq]
    · simp only [migratePart, hf, hveq, Bool.false_eq_true, if_false, ite_false]
      rw [listModify_get?, listModify_get?]
      by_cases h1 : start = i
      · subst h1
        simp only [if_pos rfl]
        have h2 : v ≠ start := hveq
        rw [if_neg h2]
        cases staves.get? start <;> rfl
      · rw [if_neg h1]
        by_cases h2 : v = i
        · subst h2
          rw [if_pos rfl]
          cases staves.get? v <;> rfl
        · rw [if_neg h2]

theorem layoutInstrumentNamesL_vertState :
    ∀ (parts : List ℕ) (start : ℕ) (staves : List SysStaff) (i : ℕ),
      ((layoutInstrumentNamesL parts start staves).get? i).map vertState
        = (staves.get? i).map vertState := by
  intro parts
  induction parts with
  | nil => intro start staves i; rfl
  | cons n rest ih =>
    intro start staves i
    simp only [layoutInstrumentNamesL]
    rw [ih, migratePart_vertState]

theorem setMeasureHeightMB_idem (sp H : ℚ) (m : MeasureBase) :
    setMeasureHeightMB sp H (setMeasureHeightMB sp H m) = setMeasureHeightMB sp H m := by
  cases m with
  | mk kind width bbox vd vu => cases kind <;> rfl

theorem restoreLayout_eq_self (ss : SysStaff) (h1 : ss.savedYPos = ss.bbox.y)
    (h2 : ss.savedHeight = ss.bbox.h) : ss.restoreLayout = ss := by
  cases ss with
  | mk bbox yOff vis cd sh sy names =>
    cases bbox
    simp only [SysStaff.restoreLayout] at *
    simp [h1, h2]

theorem restore_of_core (sc : Score) (V : List ℕ) (sysA : System) (hgt : ℚ)
    (hnd : V.Nodup) (hvb : sysA.hasVBox = false) :
    (restoreLayout2 sc { layout2Loop sc V 0 sysA with
        systemHeight := hgt
        bboxHeight := hgt
        ml := (layout2Loop sc V 0 sysA).ml.map (setMeasureHeightMB sc.spatium hgt)
        staves := layoutInstrumentNamesL sc.parts 0
          (layout2Loop sc V 0 sysA).staves }).systemHeight = hgt ∧
    (restoreLayout2 sc { layout2Loop sc V 0 sysA with
        systemHeight := hgt
        bboxHeight := hgt
        ml := (layout2Loop sc V 0 sysA).ml.map (setMeasureHeightMB sc.spatium hgt)
        staves := layoutInstrumentNamesL sc.parts 0
          (layout2Loop sc V 0 sysA).staves }).bboxHeight = hgt ∧
    (restoreLayout2 sc { layout2Loop sc V 0 sysA with
        systemHeight := hgt
        bboxHeight := hgt
        ml := (layout2Loop sc V 0 sysA).ml.map (setMeasureHeightMB sc.spatium hgt)
        staves := layoutInstrumentNamesL sc.parts 0
          (layout2Loop sc V 0 sysA).staves }).ml
      = (layout2Loop sc V 0 sysA).ml.map (setMeasureHeightMB sc.spatium hgt) ∧
    ∀ i ∈ V,
      (restoreLayout2 sc { layout2Loop sc V 0 sysA with
          systemHeight := hgt
          bboxHeight := hgt
          ml := (layout2Loop sc V 0 sysA).ml.map (setMeasureHeightMB sc.spatium hgt)
          staves := layoutInstrumentNamesL sc.parts 0
            (layout2Loop sc V 0 sysA).staves }).staves.get? i
        = (layoutInstrumentNamesL sc.parts 0 (layout2Loop sc V 0 sysA).staves).get? i := by
  have hvb2 : (layout2Loop sc V 0 sysA).hasVBox = false := by
    rw [layout2Loop_hasVBox]; exact hvb
  have hunfold : ∀ fin : System, fin.hasVBox = false →
      restoreLayout2 sc fin = { fin with
        staves := fin.staves.map SysStaff.restoreLayout
        bboxHeight := fin.systemHeight
        ml := fin.ml.map (setMeasureHeightMB sc.spatium fin.systemHeight) } := by
    intro fin hfin
    simp only [restoreLayout2, hfin, Bool.false_eq_true, if_false]
  rw [hunfold _ (by exact hvb2)]
  refine ⟨rfl, rfl, ?_, ?_⟩
  · show ((layout2Loop sc V 0 sysA).ml.map (setMeasureHeightMB sc.spatium hgt)).map
        (setMeasureHeightMB sc.spatium hgt)
      = (layout2Loop sc V 0 sysA).ml.map (setMeasureHeightMB sc.spatium hgt)
    rw [List.map_map]
    congr 1
    funext m
    exact setMeasureHeightMB_idem sc.spatium hgt m
  · intro i hi
    show ((layoutInstrumentNamesL sc.parts 0 (layout2Loop sc V 0 sysA).staves).map
        SysStaff.restoreLayout).get? i
      = (layoutInstrumentNamesL sc.parts 0 (layout2Loop sc V 0 sysA).staves).get? i
    rw [List.get?_eq_getElem?, List.getElem?_map, ← List.get?_eq_getElem?]
    cases hgi : (layoutInstrumentNamesL sc.parts 0 (layout2Loop sc V 0 sysA).staves).get? i
      with
    | none => rfl
    | some ss =>
      have hvs := layoutInstrumentNamesL_vertState sc.parts 0
        (layout2Loop sc V 0 sysA).staves i
      rw [hgi] at hvs
      cases hg2 : (layout2Loop sc V 0 sysA).staves.get? i with
      | none => rw [hg2] at hvs; simp at hvs
      | some ss0 =>
        rw [hg2] at hvs
        simp only [Option.map_some'] at hvs
        have hsm0 : savedMatches ss0 :=
          layout2Loop_savedMatches sc V 0 sysA i hnd hi ss0 hg2
        have hsm : savedMatches ss := by
          have hb : ss.bbox = ss0.bbox := congrArg Prod.fst (Option.some.inj hvs)
          have hy : ss.savedYPos = ss0.savedYPos := by
            have := congrArg (fun p => p.2.1) (Option.some.inj hvs)
            exact this
          have hh : ss.savedHeight = ss0.savedHeight := by
            have := congrArg (fun p => p.2.2) (Option.some.inj hvs)
            exact this
          exact ⟨by rw [hy, hb]; exact hsm0.1, by rw [hh, hb]; exact hsm0.2⟩
        simp [restoreLayout_eq_self ss hsm.1 hsm.2]

/-- Counterexample to C5 as stated: a system whose second staff record
is hidden but still carries the saved layout of an earlier pass (it was
visible once, then hidden — a content change made before, not after, the
`layout2` call).  `layout2` clears the hidden staff's bbox to the empty
rectangle, but `restoreLayout2` called immediately afterwards re-applies
the stale saved state to every record, so the hidden staff's bounding
box is not reproduced bit-identically. -/
theorem restoreLayout2_not_bit_identical :
    ((layout2 scEx sysStaleEx).sysStaffAt 1).bbox = RectF.zero ∧
    ((restoreLayout2 scEx (layout2 scEx sysStaleEx)).sysStaffAt 1).bbox
      = ⟨0, 7, 0, 12⟩ ∧
    ((⟨0, 7, 0, 12⟩ : RectF) ≠ RectF.zero) := by
  refine ⟨?_, ?_, by decide⟩ <;>
  norm_num [layout2, visibleIdx, layout2Loop, staffPairDist, spacerScan, clearHidden,
    layoutInstrumentNamesL, migratePart, firstVisibleInRange, setMeasureHeightMB,
    System.setStaff, System.sysStaffAt, Score.staffAt, listModify, scEx, sysEx,
    sysStaleEx, mbNone, stdStaff, stdStaff2, ssBlank, ssStale, staffGeom,
    Score.effStaffDistance, Score.effAkkoladeDistance, SysStaff.saveLayout,
    SysStaff.restoreLayout, restoreLayout2, RectF.bottom, RectF.zero,
    List.range_succ, List.filter, List.cons_ne_nil, List.get?, Option.getD,
    List.getLast, firstFixedGap, baseDist]

/-- C5 as amended: on a non-frame system with at least one visible
staff, calling `restoreLayout2` immediately after `layout2` (no
intervening change) reproduces exactly the total system height, the
bbox height, the per-measure bounding boxes and the full per-staff
records — bounding box included, bit for bit — of every VISIBLE staff.
(For a staff that is hidden, `layout2` clears the bbox while
`restoreLayout2` re-applies the last saved state, which can differ —
see the counterexample.) -/
theorem restoreLayout2_reproduces_layout2 (sc : Score) (sys : System)
    (hv : sys.hasVBox = false) (hne : visibleIdx sc sys ≠ []) :
    (restoreLayout2 sc (layout2 sc sys)).systemHeight
        = (layout2 sc sys).systemHeight ∧
    (restoreLayout2 sc (layout2 sc sys)).bboxHeight = (layout2 sc sys).bboxHeight ∧
    (restoreLayout2 sc (layout2 sc sys)).ml = (layout2 sc sys).ml ∧
    ∀ i ∈ visibleIdx sc sys,
      (restoreLayout2 sc (layout2 sc sys)).staves.get? i
        = (layout2 sc sys).staves.get? i := by
  have hnodup : (visibleIdx sc sys).Nodup := List.Nodup.filter _ (List.nodup_range _)
  simp only [layout2, hv, Bool.false_eq_true, if_false]
  split
  · next h => exact absurd h hne
  · next h =>
    exact restore_of_core sc _ _ _ hnodup rfl

/-- Witness for C5 (amended) on the concrete two-visible-staff system. -/
theorem restoreLayout2_reproduces_layout2_witness :
    (restoreLayout2 scEx (layout2 scEx sysEx)).systemHeight
        = (layout2 scEx sysEx).systemHeight ∧
    (restoreLayout2 scEx (layout2 scEx sysEx)).staves.get? 0
        = (layout2 scEx sysEx).staves.get? 0 ∧
    (restoreLayout2 scEx (layout2 scEx sysEx)).staves.get? 1
        = (layout2 scEx sysEx).staves.get? 1 := by
  have h := restoreLayout2_reproduces_layout2 scEx sysEx rfl (by decide)
  exact ⟨h.1, h.2.2.2 0 (by decide), h.2.2.2 1 (by decide)⟩

/-! ## C7 -/

theorem firstVisibleInRange_bounds (staves : List SysStaff) :
    ∀ (n start v : ℕ), firstVisibleInRange staves start n = some v →
      start ≤ v ∧ v < start + n := by
  intro n
  induction n with
  | zero => intro start v h; exact absurd h (by simp [firstVisibleInRange])
  | succ n ih =>
    intro start v h
    simp only [firstVisibleInRange] at h
    by_cases hc : ((staves.get? start).map SysStaff.visible).getD false = true
    · rw [if_pos hc] at h
      injection h with h
      omega
    · rw [if_neg hc] at h
      have := ih (start + 1) v h
      omega

theorem firstVisibleInRange_congr (l1 l2 : List SysStaff) :
    ∀ (n start : ℕ), (∀ j, start ≤ j → j < start + n → l1.get? j = l2.get? j) →
      firstVisibleInRange l1 start n = firstVisibleInRange l2 start n := by
  intro n
  induction n with
  | zero => intro start _; rfl
  | succ n ih =>
    intro start hagree
    have h0 : l1.get? start = l2.get? start := hagree start (le_refl _) (by omega)
    simp only [firstVisibleInRange, h0]
    by_cases hc : ((l2.get? start).map SysStaff.visible).getD false = true
    · rw [if_pos hc, if_pos hc]
    · rw [if_neg hc, if_neg hc]
      exact ih (start + 1) fun j hj1 hj2 => hagree j (by omega) (by omega)

theorem migratePart_outside (staves : List SysStaff) (start n : ℕ) :
    ∀ j, (j < start ∨ start + n ≤ j) →
      (migratePart staves start n).get? j = staves.get? j := by
  intro j hj
  cases hf : firstVisibleInRange staves start n with
  | none => simp [migratePart, hf]
  | some v =>
    have hb := firstVisibleInRange_bounds staves n start v hf
    by_cases hveq : v = start
    · simp [migratePart, hf, hveq]
    · simp only [migratePart, hf, hveq, Bool.false_eq_true, if_false, ite_false]
      rw [listModify_get?, if_neg (show start ≠ j by omega),
        listModify_get?, if_neg (show v ≠ j by omega)]

theorem layoutInstrumentNamesL_before :
    ∀ (parts : List ℕ) (start0 : ℕ) (staves : List SysStaff) (j : ℕ), j < start0 →
      (layoutInstrumentNamesL parts start0 staves).get? j = staves.get? j := by
  intro parts
  induction parts with
  | nil => intro start0 staves j _; rfl
  | cons n rest ih =>
    intro start0 staves j hj
    simp only [layoutInstrumentNamesL]
    rw [ih (start0 + n) _ j (by omega),
      migratePart_outside staves start0 n j (Or.inl hj)]

theorem layoutInstrumentNamesL_part :
    ∀ (partsPre : List ℕ) (start0 n : ℕ) (partsPost : List ℕ)
      (staves : List SysStaff) (v : ℕ) (s vs : SysStaff),
      staves.get? (start0 + partsPre.sum) = some s →
      s.visible = false →
      firstVisibleInRange staves (start0 + partsPre.sum) n = some v →
      staves.get? v = some vs →
      ((layoutInstrumentNamesL (partsPre ++ n :: partsPost) start0 staves).get?
          (start0 + partsPre.sum)).map SysStaff.instrumentNames = some [] ∧
      ((layoutInstrumentNamesL (partsPre ++ n :: partsPost) start0 staves).get? v).map
          SysStaff.instrumentNames
        = some (vs.instrumentNames ++ s.instrumentNames.map (retrack v)) := by
  intro partsPre
  induction partsPre with
  | nil =>
    intro start0 n post staves v s vs hs hvisfalse hfv hvs
    simp only [List.sum_nil, Nat.add_zero] at hs hfv ⊢
    have hbounds := firstVisibleInRange_bounds staves n start0 v hfv
    have hvne : v ≠ start0 := by
      intro hcontra
      rw [hcontra] at hfv
      cases n with
      | zero => simp [firstVisibleInRange] at hfv
      | succ m =>
        simp only [firstVisibleInRange, hs, Option.map_some', Option.getD_some,
          hvisfalse, Bool.false_eq_true, if_false] at hfv
        have := firstVisibleInRange_bounds staves m (start0 + 1) start0 hfv
        omega
    simp only [List.nil_append, layoutInstrumentNamesL]
    constructor
    · rw [layoutInstrumentNamesL_before post (start0 + n)
        (migratePart staves start0 n) start0 (by omega)]
      simp only [migratePart, hfv]
      rw [if_neg hvne, listModify_get?, if_pos rfl, listModify_get?,
        if_neg hvne, hs]
      rfl
    · rw [layoutInstrumentNamesL_before post (start0 + n)
        (migratePart staves start0 n) v (by omega)]
      simp only [migratePart, hfv]
      rw [if_neg hvne, listModify_get?,
        if_neg (show start0 ≠ v from fun h => hvne h.symm),
        listModify_get?, if_pos rfl, hvs, hs]
      rfl
  | cons p pre ih =>
    intro start0 n post staves v s vs hs hvisfalse hfv hvs
    have hsum : start0 + (p :: pre).sum = (start0 + p) + pre.sum := by
      simp only [List.sum_cons]
      omega
    have hbounds := firstVisibleInRange_bounds staves n (start0 + (p :: pre).sum) v hfv
    have houtside : ∀ j, (start0 + p) ≤ j →
        (migratePart staves start0 p).get? j = staves.get? j := by
      intro j hj
      exact migratePart_outside staves start0 p j (Or.inr hj)
    have hs2 : (migratePart staves start0 p).get? ((start0 + p) + pre.sum) = some s := by
      rw [houtside _ (by omega), ← hsum]
      exact hs
    have hfv2 : firstVisibleInRange (migratePart staves start0 p)
        ((start0 + p) + pre.sum) n = some v := by
      rw [firstVisibleInRange_congr (migratePart staves start0 p) staves n
        ((start0 + p) + pre.sum) (fun j hj1 hj2 => houtside j (by omega)), ← hsum]
      exact hfv
    have hvs2 : (migratePart staves start0 p).get? v = some vs := by
      rw [houtside v (by omega)]
      exact hvs
    have h := ih (start0 + p) n post (migratePart staves start0 p) v s vs
      hs2 hvisfalse hfv2 hvs2
    simp only [List.cons_append, layoutInstrumentNamesL]
    rw [hsum]
    exact h

/-- C7: in `layoutInstrumentNames`, for a part whose nominal top staff
record is invisible but which has a visible staff `v`, all
instrument-name elements of the top record are moved to the first
visible staff's record with no loss: the top record's list is left
empty, the visible staff's list becomes its old list followed by every
name of the top record retargeted to track `v * VOICES`, and the
retargeting changes nothing but the track (text and type preserved).
`partsPre.sum` is the part's first staff index; `n` its staff count. -/
theorem layoutInstrumentNames_migrates (partsPre : List ℕ) (n : ℕ)
    (partsPost : List ℕ) (staves : List SysStaff) (v : ℕ) (s vs : SysStaff)
    (hs : staves.get? partsPre.sum = some s)
    (htop : s.visible = false)
    (hvis : firstVisibleInRange staves partsPre.sum n = some v)
    (hvs : staves.get? v = some vs) :
    ((layoutInstrumentNamesL (partsPre ++ n :: partsPost) 0 staves).get?
        partsPre.sum).map SysStaff.instrumentNames = some [] ∧
    ((layoutInstrumentNamesL (partsPre ++ n :: partsPost) 0 staves).get? v).map
        SysStaff.instrumentNames
      = some (vs.instrumentNames ++ s.instrumentNames.map (retrack v)) ∧
    ∀ t, (retrack v t).xmlText = t.xmlText ∧ (retrack v t).nameType = t.nameType ∧
      (retrack v t).track = v * VOICES := by
  have h := layoutInstrumentNamesL_part partsPre 0 n partsPost staves v s vs
    (by simpa using hs) htop (by simpa using hvis) hvs
  exact ⟨by simpa using h.1, by simpa using h.2, fun t => ⟨rfl, rfl, rfl⟩⟩

/-- A concrete long instrument name. -/
def inameEx : InstrumentName :=
  { xmlText := "Vln", nameType := InstrumentNameType.long, track := 4, layoutPos := 0 }

/-- A hidden top-staff record still holding an instrument name. -/
def ssTopName : SysStaff :=
  { bbox := RectF.zero, yOff := 0, visible := false, continuousDist := 0,
    savedHeight := 0, savedYPos := 0, instrumentNames := [inameEx] }

/-- Witness for C7: parts of sizes 1 and 2, the second part's top staff
(index 1) hidden with one name, its second staff (index 2) visible: the
name moves to staff 2's record with track 2 * VOICES, and staff 1's
list is emptied. -/
theorem layoutInstrumentNames_migrates_witness :
    ((layoutInstrumentNamesL [1, 2] 0 [ssBlank, ssTopName, ssBlank]).get? 1).map
        SysStaff.instrumentNames = some [] ∧
    ((layoutInstrumentNamesL [1, 2] 0 [ssBlank, ssTopName, ssBlank]).get? 2).map
        SysStaff.instrumentNames
      = some (ssBlank.instrumentNames ++ ssTopName.instrumentNames.map (retrack 2)) := by
  have h := layoutInstrumentNames_migrates [1] 2 [] [ssBlank, ssTopName, ssBlank] 2
    ssTopName ssBlank rfl rfl rfl rfl
  exact ⟨h.1, h.2.1⟩

end Ms

